import Mathlib

/-!
Verification development for the next-seo-lite package.

The package is a pure transformation from a global configuration record
(SEOConfig) and a page-level record (SEOProps) to a framework metadata
record, plus Schema.org JSON-LD builders and a script-tag serializer.
This file gives a shallow embedding of src/metadata.ts, src/jsonld.ts,
src/schemas.ts and src/types.ts, and proves the spec claims about it.

Modelling conventions:
- a TypeScript optional field (possibly undefined) is an Option;
- a JS object used as a string map is an association list in insertion
  order, matching Object.entries enumeration order for string keys;
- JS truthiness on a string is "defined and non-empty", on a number
  "non-zero", on a boolean "true"; an object (even empty) is truthy;
- JSON values are modelled by the inductive Json below, with numbers
  restricted to integers (the repository only ever serializes integral
  numbers; float formatting is outside the model);
- the platform URL constructor (new URL) is modelled by urlParses below.
-/

namespace NextSeoLite

/-! ## JSON values

JSON.stringify input/output domain: null, booleans, numbers (modelled as
integers), strings, arrays and objects (association lists, as JS objects
enumerate string keys in insertion order). -/

inductive Json where
  | null : Json
  | bool (b : Bool) : Json
  | num (n : Int) : Json
  | str (s : String) : Json
  | arr (elems : List Json) : Json
  | obj (fields : List (String × Json)) : Json

/-! ## JSON serialization (model of JSON.stringify) -/

/-- Decimal digit character: 48 is the code of the character zero. -/
def digitChar (n : Nat) : Char := Char.ofNat (48 + n)

/-- Decimal digits of a natural number, most significant first. -/
def natChars (n : Nat) : List Char :=
  if _h : n < 10 then [digitChar n]
  else natChars (n / 10) ++ [digitChar (n % 10)]
termination_by n
decreasing_by exact Nat.div_lt_self (by omega) (by omega)

/-- Decimal rendering of an integer, as String(n) renders an integral JS
number: a minus sign for negatives, plain digits otherwise. -/
def intChars (n : Int) : List Char :=
  if n < 0 then '-' :: natChars n.natAbs else natChars n.toNat

/-- Lowercase hexadecimal digit character (87 + 10 is the code of the
letter a). -/
def hexChar (n : Nat) : Char :=
  if n < 10 then Char.ofNat (48 + n) else Char.ofNat (87 + n)

/-- JSON.stringify escaping of one character inside a string literal:
quote, backslash, the named control escapes, a u-escape for the other
control characters, and every other character unchanged. -/
def escChar (c : Char) : List Char :=
  if c = '"' then ['\\', '"']
  else if c = '\\' then ['\\', '\\']
  else if c = '\x08' then ['\\', 'b']
  else if c = '\t' then ['\\', 't']
  else if c = '\n' then ['\\', 'n']
  else if c = '\x0c' then ['\\', 'f']
  else if c = '\x0d' then ['\\', 'r']
  else if c.toNat < 32 then
    ['\\', 'u', '0', '0', hexChar (c.toNat / 16), hexChar (c.toNat % 16)]
  else [c]

/-- JSON.stringify escaping of a character sequence. -/
def escList : List Char → List Char
  | [] => []
  | c :: t => escChar c ++ escList t

/-- A JSON string literal: quote, escaped body, quote. -/
def quoteChars (s : String) : List Char :=
  '"' :: escList s.data ++ ['"']

mutual

/-- Characters of JSON.stringify of a value (no whitespace, as
JSON.stringify emits none without an indent argument). -/
def jChars : Json → List Char
  | .null => "null".data
  | .bool b => (if b then "true" else "false").data
  | .num n => intChars n
  | .str s => quoteChars s
  | .arr [] => ['[', ']']
  | .arr (x :: t) => '[' :: (jChars x ++ (jRest t ++ [']']))
  | .obj [] => ['\x7b', '\x7d']
  | .obj (f :: t) => '\x7b' :: (jField f ++ (jFieldRest t ++ ['\x7d']))

/-- Remaining array elements, each preceded by a comma. -/
def jRest : List Json → List Char
  | [] => []
  | x :: t => ',' :: (jChars x ++ jRest t)

/-- One object member: quoted key, colon, value. -/
def jField : String × Json → List Char
  | (k, v) => quoteChars k ++ (':' :: jChars v)

/-- Remaining object members, each preceded by a comma. -/
def jFieldRest : List (String × Json) → List Char
  | [] => []
  | f :: t => ',' :: (jField f ++ jFieldRest t)

end

/-- Model of JSON.stringify on the values of the model. -/
def stringify (d : Json) : String := String.mk (jChars d)

/-! ## JSON parsing

A parser for the exact grammar stringify emits (no whitespace), used to
state the round-trip property. Recursion over nested values is paid for
with explicit fuel. -/

/-- Decimal digit test (codes 48 to 57). -/
def isDig (c : Char) : Bool := 48 ≤ c.toNat && c.toNat ≤ 57

/-- Value of a decimal digit character. -/
def digVal (c : Char) : Nat := c.toNat - 48

/-- Value of a hexadecimal digit character, either case. -/
def hexVal (c : Char) : Option Nat :=
  if isDig c then some (c.toNat - 48)
  else if 97 ≤ c.toNat && c.toNat ≤ 102 then some (c.toNat - 87)
  else if 65 ≤ c.toNat && c.toNat ≤ 70 then some (c.toNat - 55)
  else none

/-- Longest digit run at the head of the input, as a number, with the
rest of the input; fails on no digit. -/
def parseDigits (cs : List Char) : Option (Nat × List Char) :=
  match cs.takeWhile isDig with
  | [] => none
  | d :: t => some (((d :: t).foldl (fun a c => a * 10 + digVal c) 0), cs.dropWhile isDig)

/-- The character a single-letter JSON escape code stands for. -/
def unescCode (e : Char) : Option Char :=
  if e = '"' then some '"'
  else if e = '\\' then some '\\'
  else if e = '/' then some '/'
  else if e = 'b' then some '\x08'
  else if e = 'f' then some '\x0c'
  else if e = 'n' then some '\n'
  else if e = 'r' then some '\x0d'
  else if e = 't' then some '\t'
  else none

/-- Body of a JSON string literal after the opening quote: the decoded
characters and the input after the closing quote. -/
def parseStr : List Char → Option (List Char × List Char)
  | [] => none
  | c :: rest =>
    if c = '"' then some ([], rest)
    else if c = '\\' then
      match rest with
      | [] => none
      | e :: rest2 =>
        if e = 'u' then
          match rest2 with
          | h1 :: h2 :: h3 :: h4 :: rest3 =>
            match hexVal h1, hexVal h2, hexVal h3, hexVal h4 with
            | some a, some b, some c3, some d4 =>
              (parseStr rest3).map (fun p => (Char.ofNat (((a * 16 + b) * 16 + c3) * 16 + d4) :: p.1, p.2))
            | _, _, _, _ => none
          | _ => none
        else
          match unescCode e with
          | some ch => (parseStr rest2).map (fun p => (ch :: p.1, p.2))
          | none => none
    else (parseStr rest).map (fun p => (c :: p.1, p.2))

mutual

/-- One JSON value at the head of the input. Fuel bounds the nesting. -/
def parseVal : Nat → List Char → Option (Json × List Char)
  | 0, _ => none
  | _ + 1, [] => none
  | fuel + 1, c :: rest =>
    if c = 'n' then
      match rest with
      | 'u' :: 'l' :: 'l' :: r => some (.null, r)
      | _ => none
    else if c = 't' then
      match rest with
      | 'r' :: 'u' :: 'e' :: r => some (.bool true, r)
      | _ => none
    else if c = 'f' then
      match rest with
      | 'a' :: 'l' :: 's' :: 'e' :: r => some (.bool false, r)
      | _ => none
    else if c = '"' then
      (parseStr rest).map (fun p => (.str (String.mk p.1), p.2))
    else if c = '[' then
      match rest with
      | [] => none
      | c2 :: r2 =>
        if c2 = ']' then some (.arr [], r2)
        else (parseElems fuel (c2 :: r2)).map (fun p => (.arr p.1, p.2))
    else if c = '\x7b' then
      match rest with
      | [] => none
      | c2 :: r2 =>
        if c2 = '\x7d' then some (.obj [], r2)
        else (parseMembers fuel (c2 :: r2)).map (fun p => (.obj p.1, p.2))
    else if c = '-' then
      (parseDigits rest).map (fun p => (.num (-(p.1 : Int)), p.2))
    else if isDig c then
      (parseDigits (c :: rest)).map (fun p => (.num (p.1 : Int), p.2))
    else none

/-- Comma-separated array elements up to and past the closing bracket. -/
def parseElems : Nat → List Char → Option (List Json × List Char)
  | 0, _ => none
  | fuel + 1, cs =>
    match parseVal fuel cs with
    | none => none
    | some (v, r) =>
      match r with
      | [] => none
      | c :: r2 =>
        if c = ',' then (parseElems fuel r2).map (fun p => (v :: p.1, p.2))
        else if c = ']' then some ([v], r2)
        else none

/-- Comma-separated object members up to and past the closing brace. -/
def parseMembers : Nat → List Char → Option (List (String × Json) × List Char)
  | 0, _ => none
  | fuel + 1, cs =>
    match cs with
    | [] => none
    | c :: rest =>
      if c = '"' then
        match parseStr rest with
        | none => none
        | some (k, r) =>
          match r with
          | [] => none
          | c2 :: r2 =>
            if c2 = ':' then
              match parseVal fuel r2 with
              | none => none
              | some (v, r3) =>
                match r3 with
                | [] => none
                | c3 :: r4 =>
                  if c3 = ',' then
                    (parseMembers fuel r4).map (fun p => ((String.mk k, v) :: p.1, p.2))
                  else if c3 = '\x7d' then some ([(String.mk k, v)], r4)
                  else none
            else none
      else none

end

mutual

/-- Size paying for the parser's fuel: one unit per value and one per
list element. -/
def jsize : Json → Nat
  | .null => 1
  | .bool _ => 1
  | .num _ => 1
  | .str _ => 1
  | .arr xs => 1 + esize xs
  | .obj fs => 1 + msize fs

def esize : List Json → Nat
  | [] => 0
  | x :: t => 1 + jsize x + esize t

def msize : List (String × Json) → Nat
  | [] => 0
  | (_, v) :: t => 1 + jsize v + msize t

end

/-- Parse a complete JSON text: fuel one more than the length always
suffices for a text stringify produced. -/
def parseJson (s : String) : Option Json :=
  match parseVal (s.length + 1) s.data with
  | some (v, []) => some v
  | _ => none

/-! ## src/jsonld.ts -/

/-- jsonLdScript from src/jsonld.ts: JSON.stringify the payload and wrap
it in a script tag of type application/ld+json. -/
def jsonLdScript (data : Json) : String :=
  "<script type=\"application/ld+json\">" ++ stringify data ++ "</script>"

/-! ## src/types.ts: schema input records -/

/-- The worksFor value of PersonSchemaProps: name and optional url. -/
structure WorksFor where
  name : String
  url : Option String := none

/-- PersonSchemaProps from src/types.ts. -/
structure PersonSchemaProps where
  name : String
  url : String
  jobTitle : Option String := none
  description : Option String := none
  email : Option String := none
  image : Option String := none
  sameAs : Option (List String) := none
  knowsAbout : Option (List String) := none
  location : Option String := none
  worksFor : Option WorksFor := none

/-- ArticleSchemaProps from src/types.ts. Numbers are modelled as
integers (the code only guards them for truthiness). -/
structure ArticleSchemaProps where
  headline : String
  description : String
  url : String
  image : Option String := none
  datePublished : String
  dateModified : Option String := none
  authorName : String
  authorUrl : Option String := none
  publisherName : Option String := none
  publisherLogo : Option String := none
  wordCount : Option Int := none
  readingTime : Option Int := none
  keywords : Option (List String) := none
  articleSection : Option String := none
  type : Option String := none

/-- OrganizationSchemaProps from src/types.ts. -/
structure OrganizationSchemaProps where
  name : String
  url : String
  logo : Option String := none
  description : Option String := none
  sameAs : Option (List String) := none
  email : Option String := none
  telephone : Option String := none

/-! ## src/schemas.ts -/

/-- One conditionally spread string member: the JS pattern
(props.x && (an object with key x)) spreads nothing when the value is
undefined or the empty string (falsy). -/
def strEntry (key : String) (o : Option String) : List (String × Json) :=
  match o with
  | some s => if s = "" then [] else [(key, .str s)]
  | none => []

/-- One conditionally spread string-list member: the JS pattern
(props.x?.length && ...) spreads nothing when the list is undefined or
empty (length 0 is falsy). -/
def listEntry (key : String) (o : Option (List String)) : List (String × Json) :=
  match o with
  | some l => if l = [] then [] else [(key, .arr (l.map .str))]
  | none => []

/-- One conditionally spread number member: the JS pattern
(props.x && ...) spreads nothing when the value is undefined or 0. -/
def numEntry (key : String) (o : Option Int) : List (String × Json) :=
  match o with
  | some n => if n = 0 then [] else [(key, .num n)]
  | none => []

/-- The conditionally spread address member: location wrapped in a
nested Place record, guarded by string truthiness. -/
def placeEntry (o : Option String) : List (String × Json) :=
  match o with
  | some loc =>
    if loc = "" then []
    else [("address", .obj [("@type", .str "Place"), ("name", .str loc)])]
  | none => []

/-- The conditionally spread worksFor member: an object value, so the
guard is definedness alone (every object is truthy). -/
def worksForEntry (o : Option WorksFor) : List (String × Json) :=
  match o with
  | some w =>
    [("worksFor", .obj ([("@type", .str "Organization"),
                         ("name", .str w.name)] ++ strEntry "url" w.url))]
  | none => []

/-- The conditionally spread publisher member of articleSchema. -/
def publisherEntry (name logo : Option String) : List (String × Json) :=
  match name with
  | some pn =>
    if pn = "" then []
    else [("publisher", .obj ([("@type", .str "Organization"),
                               ("name", .str pn)] ++ strEntry "logo" logo))]
  | none => []

/-- The conditionally spread timeRequired member: minutes as the ISO
8601 duration literal PT then the number then M, guarded by number
truthiness. -/
def durationEntry (key : String) (o : Option Int) : List (String × Json) :=
  match o with
  | some n =>
    if n = 0 then [] else [(key, .str ("PT" ++ toString n ++ "M"))]
  | none => []

/-- personSchema from src/schemas.ts. -/
def personSchema (props : PersonSchemaProps) : Json :=
  .obj (
    [("@context", .str "https://schema.org"),
     ("@type", .str "Person"),
     ("name", .str props.name),
     ("url", .str props.url)]
    ++ strEntry "jobTitle" props.jobTitle
    ++ strEntry "description" props.description
    ++ strEntry "email" props.email
    ++ strEntry "image" props.image
    ++ listEntry "sameAs" props.sameAs
    ++ listEntry "knowsAbout" props.knowsAbout
    ++ placeEntry props.location
    ++ worksForEntry props.worksFor)

/-- articleSchema from src/schemas.ts. The timeRequired value is the ISO
8601 duration literal PT followed by the minutes and M. -/
def articleSchema (props : ArticleSchemaProps) : Json :=
  .obj (
    [("@context", .str "https://schema.org"),
     ("@type", .str (props.type.getD "BlogPosting")),
     ("headline", .str props.headline),
     ("description", .str props.description),
     ("url", .str props.url),
     ("mainEntityOfPage", .str props.url)]
    ++ strEntry "image" props.image
    ++ [("datePublished", .str props.datePublished)]
    ++ strEntry "dateModified" props.dateModified
    ++ [("author", .obj ([("@type", .str "Person"),
                          ("name", .str props.authorName)]
                         ++ strEntry "url" props.authorUrl))]
    ++ publisherEntry props.publisherName props.publisherLogo
    ++ numEntry "wordCount" props.wordCount
    ++ durationEntry "timeRequired" props.readingTime
    ++ listEntry "keywords" props.keywords
    ++ strEntry "articleSection" props.articleSection)

/-- organizationSchema from src/schemas.ts. -/
def organizationSchema (props : OrganizationSchemaProps) : Json :=
  .obj (
    [("@context", .str "https://schema.org"),
     ("@type", .str "Organization"),
     ("name", .str props.name),
     ("url", .str props.url)]
    ++ strEntry "logo" props.logo
    ++ strEntry "description" props.description
    ++ listEntry "sameAs" props.sameAs
    ++ strEntry "email" props.email
    ++ strEntry "telephone" props.telephone)

/-- Fields of a schema record (every schema builder returns an object). -/
def jFields : Json → List (String × Json)
  | .obj fs => fs
  | _ => []

/-- Lookup of a key among a schema record's members. -/
def lookupField (key : String) (d : Json) : Option Json :=
  List.lookup key (jFields d)

/-! ## src/types.ts: metadata input records -/

/-- SEOConfig from src/types.ts: global defaults. The alternateLocales
map is an association list of locale code to path prefix in insertion
order. -/
structure SEOConfig where
  siteName : Option String := none
  baseUrl : Option String := none
  defaultImage : Option String := none
  titleSeparator : Option String := none
  locale : Option String := none
  keywords : Option (List String) := none
  author : Option String := none
  publisher : Option String := none
  twitterHandle : Option String := none
  alternateLocales : Option (List (String × String)) := none
deriving DecidableEq

/-- SEOProps from src/types.ts: per-page input. title and description
are required, everything else optional. -/
structure SEOProps where
  title : String
  description : String
  image : Option String := none
  path : Option String := none
  siteName : Option String := none
  baseUrl : Option String := none
  noIndex : Option Bool := none
  locale : Option String := none
  keywords : Option (List String) := none
  author : Option String := none
  imageAlt : Option String := none
  imageWidth : Option Int := none
  imageHeight : Option Int := none
  type : Option String := none
  alternates : Option (List (String × String)) := none
  structuredData : Option Json := none

/-! ## Output record shape

The Metadata value assembled by src/metadata.ts, with a conditionally
spread key modelled as an Option that is none exactly when the spread
emits nothing. -/

/-- One OpenGraph image entry (url, width, height, alt are always all
set when the entry exists). -/
structure OgImage where
  url : String
  width : Int
  height : Int
  alt : String
deriving DecidableEq

/-- The nested googleBot directive object. The fields maxVideoPreview,
maxImagePreview and maxSnippet model the keys max-video-preview,
max-image-preview and max-snippet. -/
structure GoogleBot where
  index : Bool
  follow : Bool
  maxVideoPreview : Int
  maxImagePreview : String
  maxSnippet : Int
deriving DecidableEq

/-- The robots block: index and follow flags plus the optional nested
googleBot directive object. -/
structure Robots where
  index : Bool
  follow : Bool
  googleBot : Option GoogleBot
deriving DecidableEq

/-- The openGraph block of the result. -/
structure OpenGraph where
  title : String
  description : String
  images : Option (List OgImage)
  type : String
  siteName : Option String
  url : Option String
  locale : Option String
deriving DecidableEq

/-- The twitter block of the result. -/
structure TwitterMeta where
  card : String
  title : String
  description : String
  images : Option (List String)
  creator : Option String
  site : Option String
deriving DecidableEq

/-- The alternates block of the result: canonical plus hreflang
languages map. -/
structure Alternates where
  canonical : Option String
  languages : Option (List (String × String))
deriving DecidableEq

/-- The assembled Metadata record. metadataBase holds the string the URL
object was built from (the URL object is modelled by its input, see
urlParses for the throwing behaviour of the constructor); authors holds
the name of each authors entry (the code wraps each name in a one-field
object). -/
structure Metadata where
  title : String
  description : String
  keywords : Option (List String)
  authors : Option (List String)
  creator : Option String
  publisher : Option String
  robots : Robots
  metadataBase : Option String
  openGraph : OpenGraph
  twitter : TwitterMeta
  alternates : Option Alternates
deriving DecidableEq

/-! ## src/metadata.ts: value resolution -/

/-- JS nullish coalescing on optionals: a ?? b. -/
def orElseOpt (a b : Option String) : Option String :=
  match a with
  | some x => some x
  | none => b

/-- JS truthiness gate on an optional string: keep it only when defined
and non-empty. -/
def truthyOpt (o : Option String) : Option String :=
  match o with
  | some s => if s = "" then none else some s
  | none => none

/-- Line 59: siteName is the page value whenever defined (an explicit
empty string counts as defined), else the global value. -/
def resolveSiteName (props : SEOProps) (config : SEOConfig) : Option String :=
  match props.siteName with
  | some s => some s
  | none => config.siteName

/-- Line 61: baseUrl = props.baseUrl ?? config.baseUrl. -/
def resolveBaseUrl (props : SEOProps) (config : SEOConfig) : Option String :=
  orElseOpt props.baseUrl config.baseUrl

/-- Line 62: image = props.image ?? config.defaultImage. -/
def resolveImage (props : SEOProps) (config : SEOConfig) : Option String :=
  orElseOpt props.image config.defaultImage

/-- Line 63: separator = config.titleSeparator ?? the literal bar. -/
def resolveSeparator (config : SEOConfig) : String :=
  config.titleSeparator.getD "|"

/-- Line 64: locale = props.locale ?? config.locale. -/
def resolveLocale (props : SEOProps) (config : SEOConfig) : Option String :=
  orElseOpt props.locale config.locale

/-- Line 65: author = props.author ?? config.author. -/
def resolveAuthor (props : SEOProps) (config : SEOConfig) : Option String :=
  orElseOpt props.author config.author

/-- Line 66: publisher = config.publisher ?? siteName. -/
def resolvePublisher (props : SEOProps) (config : SEOConfig) : Option String :=
  orElseOpt config.publisher (resolveSiteName props config)

/-- Lines 69 to 70: concatenate global then page keywords and spread
through a Set, which keeps the first occurrence of each element in
insertion order. -/
def dedupKeep (l : List String) : List String :=
  l.foldl (fun acc k => if k ∈ acc then acc else acc ++ [k]) []

/-- uniqueKeywords of lines 69 to 70. -/
def uniqueKeywords (props : SEOProps) (config : SEOConfig) : List String :=
  dedupKeep ((config.keywords.getD []) ++ (props.keywords.getD []))

/-- Lines 73 to 76: the full title, suffixed when the resolved site name
is defined and non-empty. -/
def fullTitle (props : SEOProps) (config : SEOConfig) : String :=
  match resolveSiteName props config with
  | some s =>
    if s = "" then props.title
    else props.title ++ " " ++ resolveSeparator config ++ " " ++ s
  | none => props.title

/-- JS String.prototype.startsWith, character-wise. -/
def jsStartsWith (s p : String) : Bool :=
  p.data.isPrefixOf s.data

/-- Line 82: baseUrl.replace with the regex of one trailing slash
anchored at the end removes exactly one trailing slash. -/
def stripTrailingSlash (s : String) : String :=
  match s.data.getLast? with
  | some c => if c = '/' then String.mk s.data.dropLast else s
  | none => s

/-- Line 83: path.replace with the regex of one leading slash anchored
at the start removes exactly one leading slash. -/
def stripLeadingSlash (s : String) : String :=
  match s.data with
  | c :: t => if c = '/' then String.mk t else s
  | [] => s

/-- Lines 80 to 82: normalizedBase is assigned only under the truthiness
test of baseUrl, so it is undefined when baseUrl is undefined or empty;
note it can itself be the empty string (baseUrl a single slash). -/
def normalizedBase (props : SEOProps) (config : SEOConfig) : Option String :=
  match resolveBaseUrl props config with
  | some b => if b = "" then none else some (stripTrailingSlash b)
  | none => none

/-- Line 83: normalized = props.path truthy, with one leading slash
stripped; the empty string otherwise. -/
def normalizedPath (props : SEOProps) : String :=
  match props.path with
  | some p => if p = "" then "" else stripLeadingSlash p
  | none => ""

/-- Lines 84 to 85: canonical = normalizedBase then a slash and the
normalized path when that is non-empty. -/
def canonical (props : SEOProps) (config : SEOConfig) : Option String :=
  match normalizedBase props config with
  | some nb =>
    some (nb ++ (if normalizedPath props = "" then "" else "/" ++ normalizedPath props))
  | none => none

/-- Lines 89 to 90: alt text = the explicit override, else title dash
site name when the resolved site name is truthy, else the bare title. -/
def resolvedImageAlt (props : SEOProps) (config : SEOConfig) : String :=
  match props.imageAlt with
  | some a => a
  | none =>
    match resolveSiteName props config with
    | some s => if s = "" then props.title else props.title ++ " - " ++ s
    | none => props.title

/-- Lines 93 to 100: the OpenGraph image list, one entry when the
resolved image is truthy. -/
def ogImages (props : SEOProps) (config : SEOConfig) : List OgImage :=
  match resolveImage props config with
  | some i =>
    if i = "" then []
    else [⟨i, props.imageWidth.getD 1200, props.imageHeight.getD 630,
           resolvedImageAlt props config⟩]
  | none => []

/-- Line 103: the twitter card type. -/
def twitterCard (props : SEOProps) (config : SEOConfig) : String :=
  match truthyOpt (resolveImage props config) with
  | some _ => "summary_large_image"
  | none => "summary"

/-- Line 104: the twitter image list. -/
def twitterImages (props : SEOProps) (config : SEOConfig) : List String :=
  match truthyOpt (resolveImage props config) with
  | some i => [i]
  | none => []

/-- Lines 107 to 129: the languages map. A page-level alternates object
(even empty) takes the first branch: each value is kept verbatim when it
starts with http, else prefixed with normalizedBase when that is truthy.
Otherwise the second branch needs config.alternateLocales defined (even
empty), normalizedBase truthy and props.path truthy. -/
def languages (props : SEOProps) (config : SEOConfig) :
    Option (List (String × String)) :=
  match props.alternates with
  | some pageAlternates =>
    some (pageAlternates.map (fun kv =>
      (kv.1,
       if jsStartsWith kv.2 "http" then kv.2
       else
         match normalizedBase props config with
         | some nb => if nb = "" then kv.2 else nb ++ kv.2
         | none => kv.2)))
  | none =>
    match config.alternateLocales with
    | none => none
    | some configAlternates =>
      match normalizedBase props config with
      | none => none
      | some nb =>
        if nb = "" then none
        else
          match props.path with
          | none => none
          | some p =>
            if p = "" then none
            else
              some (configAlternates.map (fun kv =>
                (kv.1,
                 nb ++ kv.2 ++
                   (if stripLeadingSlash p = "" then ""
                    else "/" ++ stripLeadingSlash p))))

/-- Lines 132 to 144: the robots block. -/
def resolvedRobots (props : SEOProps) : Robots :=
  match props.noIndex with
  | some true => ⟨false, false, none⟩
  | _ => ⟨true, true, some ⟨true, true, -1, "large", -1⟩⟩

/-- Line 147: og type defaults to website. -/
def resolvedOgType (props : SEOProps) : String :=
  props.type.getD "website"

/-! ## Model of the platform URL constructor

Line 160 calls new URL(normalizedBase), the WHATWG URL constructor,
which throws a TypeError (message Invalid URL) when its argument does
not parse as an absolute URL. The model captures the parser's leading
requirements: after trimming C0 controls and spaces at both ends the
input must start with an ASCII alphabetic scheme followed by a colon,
and for the special network schemes something other than slashes and a
query or fragment opener must follow the colon (the host of a special
URL may not be empty). Host validation beyond that is not modelled, so
urlParses over-approximates the platform parser's successes; the
development only relies on its failures on scheme-less inputs. -/

/-- ASCII alphabetic test. -/
def isAsciiAlpha (c : Char) : Bool :=
  (65 ≤ c.toNat && c.toNat ≤ 90) || (97 ≤ c.toNat && c.toNat ≤ 122)

/-- Characters allowed inside a URL scheme after the first. -/
def isSchemeChar (c : Char) : Bool :=
  isAsciiAlpha c || isDig c || c = '+' || c = '-' || c = '.'

/-- Split the scheme (lowercased) from the rest at the first colon. -/
def splitScheme : List Char → Option (List Char × List Char)
  | [] => none
  | c :: rest =>
    if c = ':' then some ([], rest)
    else if isSchemeChar c then
      (splitScheme rest).map (fun p => (c.toLower :: p.1, p.2))
    else none

/-- The special network schemes whose URLs require a non-empty host. -/
def isSpecialScheme (s : List Char) : Bool :=
  s = ['h', 't', 't', 'p'] || s = ['h', 't', 't', 'p', 's'] ||
  s = ['w', 's'] || s = ['w', 's', 's'] || s = ['f', 't', 'p']

/-- Whether new URL accepts the string, in the model. -/
def urlParses (s : String) : Bool :=
  let trimmed :=
    ((s.data.dropWhile (fun c => c.toNat ≤ 32)).reverse.dropWhile
      (fun c => c.toNat ≤ 32)).reverse
  match trimmed with
  | [] => false
  | c :: rest =>
    if isAsciiAlpha c then
      match splitScheme (c :: rest) with
      | none => false
      | some (scheme, after) =>
        if isSpecialScheme scheme then
          match after.dropWhile (fun c => c = '/' || c = '\\') with
          | [] => false
          | c2 :: _ => !(c2 = '#' || c2 = '?')
        else true
    else false

/-! ## src/metadata.ts: assembly -/

/-- Lines 150 to 190: the assembled record, one Option per conditionally
spread key; the alternates block is deleted again when its canonical is
not truthy and its languages key is absent (an empty languages object is
an object, hence truthy, and keeps the block). -/
def buildMetadataCore (props : SEOProps) (config : SEOConfig) : Metadata :=
  { title := fullTitle props config
    description := props.description
    keywords :=
      if uniqueKeywords props config = [] then none
      else some (uniqueKeywords props config)
    authors :=
      match truthyOpt (resolveAuthor props config) with
      | some a => some [a]
      | none => none
    creator := truthyOpt (resolveAuthor props config)
    publisher := truthyOpt (resolvePublisher props config)
    robots := resolvedRobots props
    metadataBase := truthyOpt (normalizedBase props config)
    openGraph :=
      { title := fullTitle props config
        description := props.description
        images :=
          if ogImages props config = [] then none else some (ogImages props config)
        type := resolvedOgType props
        siteName := truthyOpt (resolveSiteName props config)
        url := truthyOpt (canonical props config)
        locale := truthyOpt (resolveLocale props config) }
    twitter :=
      { card := twitterCard props config
        title := fullTitle props config
        description := props.description
        images :=
          if twitterImages props config = [] then none
          else some (twitterImages props config)
        creator := truthyOpt config.twitterHandle
        site := truthyOpt config.twitterHandle }
    alternates :=
      if truthyOpt (canonical props config) = none ∧ languages props config = none
      then none
      else some ⟨truthyOpt (canonical props config), languages props config⟩ }

/-- buildMetadata from src/metadata.ts. The only effect in the function
is the URL constructor at line 160, reached exactly when normalizedBase
is truthy; it throws on an argument the URL parser rejects, which the
model reports as the error value with the platform's message. -/
def buildMetadata (props : SEOProps) (config : SEOConfig) : Except String Metadata :=
  match truthyOpt (normalizedBase props config) with
  | some nb =>
    if urlParses nb then .ok (buildMetadataCore props config)
    else .error "Invalid URL"
  | none => .ok (buildMetadataCore props config)

/-- createSEOConfig from src/metadata.ts: binds the global config. -/
def createSEOConfig (config : SEOConfig) : SEOProps → Except String Metadata :=
  fun props => buildMetadata props config

/-- defineSEO from src/metadata.ts: the zero-config helper. -/
def defineSEO (props : SEOProps) : Except String Metadata :=
  buildMetadata props {}

/-! ## Claim-side definitions -/

/-- Deduplication as the spec words it: keep each element's first
occurrence, preserving order. -/
def dedupFirstSpec : List String → List String
  | [] => []
  | x :: t => x :: dedupFirstSpec (t.filter (fun y => y ≠ x))
termination_by l => l.length
decreasing_by
  exact Nat.lt_succ_of_le (List.length_filter_le (fun y => y ≠ x) t)

/-- The canonical URL carried by a result record (inside alternates). -/
def getCanonical (m : Metadata) : Option String :=
  match m.alternates with
  | some a => a.canonical
  | none => none

/-- The languages map carried by a result record (inside alternates). -/
def getLanguages (m : Metadata) : Option (List (String × String)) :=
  match m.alternates with
  | some a => a.languages
  | none => none

/-- Whether a run of buildMetadata returns a result in the model: a
non-truthy normalized base, or one the URL parser accepts. -/
def baseOk (props : SEOProps) (config : SEOConfig) : Bool :=
  match truthyOpt (normalizedBase props config) with
  | some nb => urlParses nb
  | none => true

/-- The input left over after a serialized number must not begin with a
digit, or the parser would consume it into the number. -/
def noDigHead : List Char → Prop
  | [] => True
  | c :: _ => isDig c = false

/-! ## Concrete inputs for counterexamples -/

/-- The empty global configuration. -/
def cfg0 : SEOConfig := {}

/-- A well-typed page input whose base URL is not a parseable URL. -/
def propsBadUrl : SEOProps :=
  { title := "Home", description := "d", baseUrl := some "not a url" }

/-- A page input whose base URL is the single slash: the base resolves
(non-empty) but normalizes to the empty string. -/
def propsSlashBase : SEOProps :=
  { title := "Home", description := "d", baseUrl := some "/" }

/-- A page input supplying an empty alternates map. -/
def propsEmptyAlternates : SEOProps :=
  { title := "Home", description := "d", alternates := some [] }

/-- Page input for the C7 counterexample: a path but no alternates. -/
def propsC7 : SEOProps :=
  { title := "Home", description := "d", path := some "/about" }

/-- Config for the C7 counterexample: slash base URL and a global locale
map. -/
def cfgC7 : SEOConfig :=
  { baseUrl := some "/", alternateLocales := some [("en", "")] }

/-! # Theorems -/

/-! ## Shared lemmas -/

/-- Every successful run of buildMetadata returns the assembled core
record. -/
theorem build_ok_eq (props : SEOProps) (config : SEOConfig) (m : Metadata)
    (h : buildMetadata props config = Except.ok m) :
    m = buildMetadataCore props config := by
  unfold buildMetadata at h
  split at h
  · split at h
    · exact (Except.ok.inj h).symm
    · cases h
  · exact (Except.ok.inj h).symm

/-- Unfolding equation of dedupFirstSpec on a non-empty list. -/
theorem dedupFirstSpec_cons (x : String) (t : List String) :
    dedupFirstSpec (x :: t) = x :: dedupFirstSpec (t.filter (fun y => y ≠ x)) := by
  rw [dedupFirstSpec.eq_def]

/-- The fold of the Set-spread deduplication, on an arbitrary
accumulator. -/
theorem dedupKeep_aux (l acc : List String) :
    l.foldl (fun acc k => if k ∈ acc then acc else acc ++ [k]) acc =
      acc ++ dedupFirstSpec (l.filter (fun y => decide (y ∉ acc))) := by
  induction l generalizing acc with
  | nil => simp [dedupFirstSpec]
  | cons x t ih =>
    by_cases hx : x ∈ acc
    · rw [List.foldl_cons, if_pos hx, ih acc]
      have hfe : (x :: t).filter (fun y => decide (y ∉ acc)) =
          t.filter (fun y => decide (y ∉ acc)) := by
        simp [List.filter_cons, hx]
      rw [hfe]
    · rw [List.foldl_cons, if_neg hx, ih (acc ++ [x])]
      have hfe : (x :: t).filter (fun y => decide (y ∉ acc)) =
          x :: t.filter (fun y => decide (y ∉ acc)) := by
        simp [List.filter_cons, hx]
      rw [hfe, dedupFirstSpec_cons]
      simp only [List.append_assoc, List.cons_append, List.nil_append,
        List.filter_filter]
      have hpred : ∀ y ∈ t,
          (decide (y ∉ acc ++ [x])) = ((decide (y ≠ x)) && (decide (y ∉ acc))) := by
        intro y _
        by_cases hyx : y = x <;> by_cases hya : y ∈ acc <;>
          simp [hyx, hya, List.mem_append]
      rw [List.filter_congr hpred]

/-- The Set spread keeps first occurrences in order: the source fold
equals the first-occurrence deduplication. -/
theorem dedupKeep_eq (l : List String) : dedupKeep l = dedupFirstSpec l := by
  have h := dedupKeep_aux l []
  simpa [dedupKeep, List.filter_true] using h

/-! ## Claims about the metadata builder -/

/-- C1 (corrected): the builder is not total. The URL constructor at
line 160 of src/metadata.ts throws when the truthy normalized base does
not parse as a URL, so the builder can fail on well-typed input; here a
well-typed page whose baseUrl has no URL scheme makes defineSEO (and the
function createSEOConfig returns) throw the platform's Invalid URL
TypeError instead of returning a result. -/
theorem C1_counterexample :
    defineSEO propsBadUrl = Except.error "Invalid URL" ∧
    createSEOConfig cfg0 propsBadUrl = Except.error "Invalid URL" :=
  ⟨rfl, rfl⟩

/-- C1 (amended): the builder returns a result exactly when the
normalized base URL is not truthy or is accepted by the URL parser;
every error branch other than the URL construction is unreachable. -/
theorem C1_totality (props : SEOProps) (config : SEOConfig) :
    (∃ m, buildMetadata props config = Except.ok m) ↔ baseOk props config = true := by
  cases h : truthyOpt (normalizedBase props config) with
  | none => simp [buildMetadata, baseOk, h]
  | some nb =>
    by_cases hu : urlParses nb <;> simp [buildMetadata, baseOk, h, hu]

/-- C2: the OpenGraph images key is present (and then a single entry)
exactly when the image resolution chain (page image, else the global
default image; SEOProps has no page-level default-image field, so that
legacy link of the chain never applies) yields a truthy value; the entry
carries that url, the page width or 1200, the page height or 630, and
the alt text from the explicit override, else title dash site name when
a non-empty site name resolves, else the bare title. -/
theorem C2_og_images (props : SEOProps) (config : SEOConfig) :
    ((buildMetadataCore props config).openGraph.images ≠ none ↔
      truthyOpt (resolveImage props config) ≠ none) ∧
    (buildMetadataCore props config).openGraph.images =
      (match truthyOpt (orElseOpt props.image config.defaultImage) with
       | some i =>
         some [⟨i, props.imageWidth.getD 1200, props.imageHeight.getD 630,
           (match props.imageAlt with
            | some a => a
            | none =>
              match truthyOpt (resolveSiteName props config) with
              | some s => props.title ++ " - " ++ s
              | none => props.title)⟩]
       | none => none) ∧
    (∀ m, buildMetadata props config = Except.ok m →
      m.openGraph.images = (buildMetadataCore props config).openGraph.images) := by
  refine ⟨?_, ?_, fun m h => by rw [build_ok_eq props config m h]⟩
  · cases hi : resolveImage props config with
    | none => simp [buildMetadataCore, ogImages, truthyOpt, hi]
    | some i =>
      by_cases hie : i = "" <;>
        simp [buildMetadataCore, ogImages, truthyOpt, hi, hie]
  · cases hi : resolveImage props config with
    | none =>
      simp only [resolveImage] at hi
      simp [buildMetadataCore, ogImages, resolveImage, truthyOpt, hi]
    | some i =>
      have hi2 : orElseOpt props.image config.defaultImage = some i := hi
      by_cases hie : i = ""
      · simp [buildMetadataCore, ogImages, truthyOpt, hi, hi2, hie]
      · simp only [buildMetadataCore, ogImages, truthyOpt, hi, hi2, hie,
          if_neg, ite_false]
        simp only [resolvedImageAlt]
        cases ha : props.imageAlt with
        | some a => simp
        | none =>
          cases hs : resolveSiteName props config with
          | none => simp
          | some s => by_cases hse : s = "" <;> simp [hse]

/-- C3 (corrected): when the base URL resolves AND normalizes to a
truthy string, the canonical is the normalized base followed by a slash
and the stripped path when that is non-empty, and mirrors into the
OpenGraph url; a canonical that computes to the empty string (base URL a
bare slash with an empty path) is dropped from the result by the
truthiness spread, unlike the claim's unconditional equation; with no
resolved base URL there is no canonical and no metadataBase. -/
theorem C3_canonical (props : SEOProps) (config : SEOConfig) :
    getCanonical (buildMetadataCore props config) = truthyOpt (canonical props config) ∧
    (buildMetadataCore props config).openGraph.url = truthyOpt (canonical props config) ∧
    canonical props config =
      (match resolveBaseUrl props config with
       | some b =>
         if b = "" then none
         else some (stripTrailingSlash b ++
           (if normalizedPath props = "" then "" else "/" ++ normalizedPath props))
       | none => none) ∧
    (truthyOpt (resolveBaseUrl props config) = none →
      getCanonical (buildMetadataCore props config) = none ∧
      (buildMetadataCore props config).metadataBase = none) := by
  have hget : getCanonical (buildMetadataCore props config) =
      truthyOpt (canonical props config) := by
    by_cases hc :
        truthyOpt (canonical props config) = none ∧ languages props config = none
    · simp [getCanonical, buildMetadataCore, hc.1, hc.2]
    · simp [getCanonical, buildMetadataCore, if_neg hc]
  refine ⟨hget, rfl, ?_, ?_⟩
  · cases hb : resolveBaseUrl props config with
    | none => simp [canonical, normalizedBase, hb]
    | some b => by_cases hbe : b = "" <;> simp [canonical, normalizedBase, hb, hbe]
  · intro h
    have hnb : normalizedBase props config = none := by
      cases hb : resolveBaseUrl props config with
      | none => simp [normalizedBase, hb]
      | some b =>
        simp only [truthyOpt, hb] at h
        by_cases hbe : b = ""
        · simp [normalizedBase, hb, hbe]
        · simp [hbe] at h
    have hcanon : canonical props config = none := by simp [canonical, hnb]
    rw [hget]
    constructor
    · simp [hcanon, truthyOpt]
    · simp [buildMetadataCore, hnb, truthyOpt]

/-- C3 counterexample: with a bare-slash base URL the base resolves to a
non-empty string, yet the result carries no canonical at all (no
alternates block and no OpenGraph url), where the claim requires a
canonical equal to the normalized base (here the empty string). -/
theorem C3_counterexample :
    resolveBaseUrl propsSlashBase cfg0 = some "/" ∧
    buildMetadata propsSlashBase cfg0 =
      Except.ok (buildMetadataCore propsSlashBase cfg0) ∧
    (buildMetadataCore propsSlashBase cfg0).alternates = none ∧
    (buildMetadataCore propsSlashBase cfg0).openGraph.url = none :=
  ⟨rfl, rfl, rfl, rfl⟩

/-- C4: noIndex true gives exactly index false, follow false with no
nested directive object; otherwise the permissive block with the nested
googleBot directives (max-video-preview minus one, max-image-preview
large, max-snippet minus one). -/
theorem C4_robots (props : SEOProps) (config : SEOConfig) :
    (buildMetadataCore props config).robots =
      (match props.noIndex with
       | some true => ⟨false, false, none⟩
       | _ => ⟨true, true, some ⟨true, true, -1, "large", -1⟩⟩) ∧
    (∀ m, buildMetadata props config = Except.ok m →
      m.robots = (buildMetadataCore props config).robots) :=
  ⟨rfl, fun m h => by rw [build_ok_eq props config m h]⟩

/-- C5: the resolved site name is the page value whenever provided (an
explicit empty page value suppresses suffixing even over a global
value), else the global value; the title is suffixed with the separator
(global titleSeparator or the literal bar) and the site name exactly
when that resolved name is non-empty. -/
theorem C5_title (props : SEOProps) (config : SEOConfig) :
    resolveSiteName props config =
      (match props.siteName with
       | some s => some s
       | none => config.siteName) ∧
    (buildMetadataCore props config).title =
      (match resolveSiteName props config with
       | some s =>
         if s = "" then props.title
         else props.title ++ " " ++ (config.titleSeparator.getD "|") ++ " " ++ s
       | none => props.title) ∧
    (∀ m, buildMetadata props config = Except.ok m →
      m.title = (buildMetadataCore props config).title) :=
  ⟨rfl, rfl, fun m h => by rw [build_ok_eq props config m h]⟩

/-- C6 (corrected): the alternates block is omitted exactly when the
computed canonical is not truthy AND the languages value is undefined; a
present-but-empty languages map is a truthy object, so it keeps the
block, unlike the claim's reading that an empty languages sub-field also
counts as empty. -/
theorem C6_alternates_omission (props : SEOProps) (config : SEOConfig) :
    ((buildMetadataCore props config).alternates = none ↔
      (truthyOpt (canonical props config) = none ∧ languages props config = none)) ∧
    (truthyOpt (resolveBaseUrl props config) = none → props.alternates = none →
      (buildMetadataCore props config).alternates = none) ∧
    (∀ m, buildMetadata props config = Except.ok m →
      m.alternates = (buildMetadataCore props config).alternates) := by
  have hiff : (buildMetadataCore props config).alternates = none ↔
      (truthyOpt (canonical props config) = none ∧ languages props config = none) := by
    by_cases hc :
        truthyOpt (canonical props config) = none ∧ languages props config = none
    · simp [buildMetadataCore, if_pos hc, hc]
    · simp [buildMetadataCore, if_neg hc, hc]
  refine ⟨hiff, ?_, fun m h => by rw [build_ok_eq props config m h]⟩
  intro hbase halt
  have hnb : normalizedBase props config = none := by
    cases hb : resolveBaseUrl props config with
    | none => simp [normalizedBase, hb]
    | some b =>
      simp only [truthyOpt, hb] at hbase
      by_cases hbe : b = ""
      · simp [normalizedBase, hb, hbe]
      · simp [hbe] at hbase
  rw [hiff]
  refine ⟨by simp [canonical, hnb, truthyOpt], ?_⟩
  cases hca : config.alternateLocales <;> simp [languages, halt, hnb, hca]

/-- C6 counterexample: an empty page-level alternates map and no base
URL give empty canonical and an empty languages map, yet the result
keeps an alternates block holding that empty map, where the claim
requires the field to be absent. -/
theorem C6_counterexample :
    buildMetadata propsEmptyAlternates cfg0 =
      Except.ok (buildMetadataCore propsEmptyAlternates cfg0) ∧
    truthyOpt (canonical propsEmptyAlternates cfg0) = none ∧
    languages propsEmptyAlternates cfg0 = some [] ∧
    (buildMetadataCore propsEmptyAlternates cfg0).alternates = some ⟨none, some []⟩ :=
  ⟨rfl, rfl, rfl, rfl⟩

/-- C7 (corrected): with a page-level map, each value is kept verbatim
when it starts with http and otherwise prefixed with the normalized base
when that is truthy (left bare when it is undefined or empty); without a
page-level map, the global branch additionally requires the NORMALIZED
base to be truthy, not merely a resolved base URL (a bare-slash base
resolves but normalizes to the empty string and produces no languages
map), and a truthy page path. -/
theorem C7_languages (props : SEOProps) (config : SEOConfig) :
    getLanguages (buildMetadataCore props config) = languages props config ∧
    languages props config =
      (match props.alternates with
       | some pa =>
         some (pa.map (fun kv =>
           (kv.1,
            if jsStartsWith kv.2 "http" then kv.2
            else
              match truthyOpt (normalizedBase props config) with
              | some nb => nb ++ kv.2
              | none => kv.2)))
       | none =>
         match config.alternateLocales with
         | some ca =>
           match truthyOpt (normalizedBase props config), props.path with
           | some nb, some p =>
             if p = "" then none
             else
               some (ca.map (fun kv =>
                 (kv.1,
                  nb ++ kv.2 ++
                    (if stripLeadingSlash p = "" then ""
                     else "/" ++ stripLeadingSlash p))))
           | _, _ => none
         | none => none) ∧
    (∀ m, buildMetadata props config = Except.ok m →
      getLanguages m = getLanguages (buildMetadataCore props config)) := by
  have hget : getLanguages (buildMetadataCore props config) =
      languages props config := by
    by_cases hc :
        truthyOpt (canonical props config) = none ∧ languages props config = none
    · simp [getLanguages, buildMetadataCore, hc.1, hc.2]
    · simp [getLanguages, buildMetadataCore, if_neg hc]
  refine ⟨hget, ?_, fun m h => by rw [build_ok_eq props config m h]⟩
  cases hpa : props.alternates with
  | some pa =>
    cases hnb : normalizedBase props config with
    | none => simp [languages, hpa, hnb, truthyOpt]
    | some nb =>
      by_cases hne : nb = "" <;> simp [languages, hpa, hnb, truthyOpt, hne]
  | none =>
    cases hca : config.alternateLocales with
    | none => simp [languages, hpa, hca]
    | some ca =>
      cases hnb : normalizedBase props config with
      | none => simp [languages, hpa, hca, hnb, truthyOpt]
      | some nb =>
        by_cases hne : nb = ""
        · simp [languages, hpa, hca, hnb, truthyOpt, hne]
        · cases hp : props.path with
          | none => simp [languages, hpa, hca, hnb, truthyOpt, hne, hp]
          | some p =>
            by_cases hpe : p = "" <;>
              simp [languages, hpa, hca, hnb, truthyOpt, hne, hp, hpe]

/-- C7 counterexample: a resolved bare-slash base URL, a global locale
map and a non-empty page path, yet no languages map is produced (the
normalized base is empty, so the global branch is skipped), where the
claim requires a map sending en to the page path. -/
theorem C7_counterexample :
    resolveBaseUrl propsC7 cfgC7 = some "/" ∧
    cfgC7.alternateLocales = some [("en", "")] ∧
    propsC7.path = some "/about" ∧
    languages propsC7 cfgC7 = none ∧
    getLanguages (buildMetadataCore propsC7 cfgC7) = none ∧
    buildMetadata propsC7 cfgC7 = Except.ok (buildMetadataCore propsC7 cfgC7) :=
  ⟨rfl, rfl, rfl, rfl, rfl, rfl⟩

/-- C8: the resolved keyword list is the concatenation of global then
page keywords with first occurrences kept in order, and the result
carries it exactly when it is non-empty; on the claim's example the
resolved list is a, b, c. -/
theorem C8_keywords (props : SEOProps) (config : SEOConfig) :
    uniqueKeywords props config =
      dedupFirstSpec ((config.keywords.getD []) ++ (props.keywords.getD [])) ∧
    (buildMetadataCore props config).keywords =
      (if uniqueKeywords props config = [] then none
       else some (uniqueKeywords props config)) ∧
    dedupKeep (["a", "b"] ++ ["b", "c"]) = ["a", "b", "c"] ∧
    (∀ m, buildMetadata props config = Except.ok m →
      m.keywords = (buildMetadataCore props config).keywords) :=
  ⟨dedupKeep_eq _, rfl, rfl, fun m h => by rw [build_ok_eq props config m h]⟩

/-! ## JSON round-trip lemmas -/

/-- digitChar of a digit value is a digit character. -/
theorem isDig_digitChar {n : Nat} (h : n < 10) : isDig (digitChar n) = true := by
  interval_cases n <;> decide

/-- digVal inverts digitChar on digit values. -/
theorem digVal_digitChar {n : Nat} (h : n < 10) : digVal (digitChar n) = n := by
  interval_cases n <;> decide

/-- hexVal inverts hexChar on hex digit values. -/
theorem hexVal_hexChar {n : Nat} (h : n < 16) : hexVal (hexChar n) = some n := by
  interval_cases n <;> decide

/-- natChars always emits at least one character. -/
theorem natChars_ne_nil (n : Nat) : natChars n ≠ [] := by
  rw [natChars.eq_def]
  split <;> simp

/-- Every character natChars emits is a digit. -/
theorem natChars_digits (n : Nat) : ∀ c ∈ natChars n, isDig c = true := by
  induction n using Nat.strong_induction_on with
  | _ n ih =>
    rw [natChars.eq_def]
    split
    · next h =>
      intro c hc
      simp only [List.mem_singleton] at hc
      subst hc
      exact isDig_digitChar h
    · next h =>
      intro c hc
      rw [List.mem_append, List.mem_singleton] at hc
      rcases hc with hc | hc
      · exact ih (n / 10) (Nat.div_lt_self (by omega) (by omega)) c hc
      · subst hc
        exact isDig_digitChar (Nat.mod_lt n (by omega))

/-- Reading natChars back by the decimal fold recovers the number. -/
theorem foldl_natChars (n : Nat) :
    ∀ a, (natChars n).foldl (fun a c => a * 10 + digVal c) a =
      a * 10 ^ (natChars n).length + n := by
  induction n using Nat.strong_induction_on with
  | _ n ih =>
    intro a
    rw [natChars.eq_def]
    split
    · next h =>
      simp [digVal_digitChar h]
    · next h =>
      rw [List.foldl_append, ih (n / 10) (Nat.div_lt_self (by omega) (by omega)) a]
      simp only [List.foldl_cons, List.foldl_nil, List.length_append,
        List.length_singleton]
      rw [digVal_digitChar (Nat.mod_lt n (by omega))]
      calc (a * 10 ^ (natChars (n / 10)).length + n / 10) * 10 + n % 10
          = a * 10 ^ (natChars (n / 10)).length * 10 + (n / 10 * 10 + n % 10) := by
            ring
        _ = a * 10 ^ (natChars (n / 10)).length * 10 + n := by omega
        _ = a * 10 ^ ((natChars (n / 10)).length + 1) + n := by
            rw [pow_succ]; ring

/-- takeWhile and dropWhile split an all-digit prefix from a rest that
does not begin with a digit. -/
theorem takeDrop_digits (ds rest : List Char)
    (hd : ∀ c ∈ ds, isDig c = true) (hr : noDigHead rest) :
    (ds ++ rest).takeWhile isDig = ds ∧ (ds ++ rest).dropWhile isDig = rest := by
  induction ds with
  | nil =>
    cases rest with
    | nil => simp
    | cons c t =>
      have hr2 : isDig c = false := hr
      simp [List.takeWhile_cons, List.dropWhile_cons, hr2]
  | cons d t ih =>
    have hdh := hd d (List.mem_cons_self d t)
    obtain ⟨h1, h2⟩ := ih (fun c hc => hd c (List.mem_cons_of_mem d hc))
    simp [List.takeWhile_cons, List.dropWhile_cons, hdh, h1, h2]

/-- parseDigits inverts natChars. -/
theorem parseDigits_natChars (n : Nat) (rest : List Char) (hr : noDigHead rest) :
    parseDigits (natChars n ++ rest) = some (n, rest) := by
  obtain ⟨ht, hd⟩ := takeDrop_digits (natChars n) rest (natChars_digits n) hr
  unfold parseDigits
  rw [ht, hd]
  cases hnc : natChars n with
  | nil => exact absurd hnc (natChars_ne_nil n)
  | cons c t =>
    have hf := foldl_natChars n 0
    rw [hnc] at hf
    simp only [Nat.zero_mul, Nat.zero_add] at hf
    simp [hf]

/-- parseStr undoes the escaping of a single character. -/
theorem parseStr_escChar (c : Char) (tail : List Char) :
    parseStr (escChar c ++ tail) =
      (parseStr tail).map (fun p => (c :: p.1, p.2)) := by
  by_cases h1 : c = '"'
  · subst h1
    rw [show escChar '"' ++ tail = '\\' :: '"' :: tail from rfl, parseStr.eq_def]
    simp [unescCode]
  · by_cases h2 : c = '\\'
    · subst h2
      rw [show escChar '\\' ++ tail = '\\' :: '\\' :: tail from rfl, parseStr.eq_def]
      simp [unescCode]
    · by_cases h3 : c = '\x08'
      · subst h3
        rw [show escChar '\x08' ++ tail = '\\' :: 'b' :: tail from rfl, parseStr.eq_def]
        simp [unescCode]
      · by_cases h4 : c = '\t'
        · subst h4
          rw [show escChar '\t' ++ tail = '\\' :: 't' :: tail from rfl, parseStr.eq_def]
          simp [unescCode]
        · by_cases h5 : c = '\n'
          · subst h5
            rw [show escChar '\n' ++ tail = '\\' :: 'n' :: tail from rfl, parseStr.eq_def]
            simp [unescCode]
          · by_cases h6 : c = '\x0c'
            · subst h6
              rw [show escChar '\x0c' ++ tail = '\\' :: 'f' :: tail from rfl,
                parseStr.eq_def]
              simp [unescCode]
            · by_cases h7 : c = '\x0d'
              · subst h7
                rw [show escChar '\x0d' ++ tail = '\\' :: 'r' :: tail from rfl,
                  parseStr.eq_def]
                simp [unescCode]
              · by_cases h8 : c.toNat < 32
                · have hesc : escChar c ++ tail =
                      '\\' :: 'u' :: '0' :: '0' :: hexChar (c.toNat / 16) ::
                        hexChar (c.toNat % 16) :: tail := by
                    unfold escChar
                    simp [h1, h2, h3, h4, h5, h6, h7, h8]
                  have hdiv : c.toNat / 16 < 16 := by omega
                  have hmod : c.toNat % 16 < 16 := Nat.mod_lt _ (by omega)
                  have hchar : Char.ofNat (c.toNat / 16 * 16 + c.toNat % 16) = c := by
                    have hx : c.toNat / 16 * 16 + c.toNat % 16 = c.toNat := by omega
                    rw [hx, Char.ofNat_toNat]
                  rw [hesc, parseStr.eq_def]
                  simp [show hexVal '0' = some 0 from by decide,
                    hexVal_hexChar hdiv, hexVal_hexChar hmod, hchar]
                · have hesc : escChar c ++ tail = c :: tail := by
                    unfold escChar
                    simp [h1, h2, h3, h4, h5, h6, h7, h8]
                  rw [hesc, parseStr.eq_def]
                  simp [h1, h2]

/-- parseStr undoes escList up to the closing quote. -/
theorem parseStr_escList (s tail : List Char) :
    parseStr (escList s ++ ('"' :: tail)) = some (s, tail) := by
  induction s with
  | nil =>
    rw [show escList [] ++ ('"' :: tail) = '"' :: tail from rfl, parseStr.eq_def]
    simp
  | cons c t ih =>
    rw [escList, List.append_assoc, parseStr_escChar, ih]
    rfl

/-- Every value's serialization is non-empty and never begins with a
closing bracket or closing brace. -/
theorem jChars_head (d : Json) :
    ∃ c cs, jChars d = c :: cs ∧ c ≠ ']' ∧ c ≠ '\x7d' := by
  cases d with
  | null => exact ⟨'n', _, rfl, by decide, by decide⟩
  | bool b =>
    cases b with
    | false => exact ⟨'f', _, rfl, by decide, by decide⟩
    | true => exact ⟨'t', _, rfl, by decide, by decide⟩
  | num n =>
    rw [show jChars (.num n) = intChars n from rfl]
    unfold intChars
    by_cases hn : n < 0
    · exact ⟨'-', _, by rw [if_pos hn], by decide, by decide⟩
    · rw [if_neg hn]
      cases hnc : natChars n.toNat with
      | nil => exact absurd hnc (natChars_ne_nil _)
      | cons c t =>
        have hdig : isDig c = true := by
          apply natChars_digits n.toNat
          rw [hnc]; exact List.mem_cons_self c t
        refine ⟨c, t, rfl, ?_, ?_⟩
        · intro hc; subst hc; exact absurd hdig (by decide)
        · intro hc; subst hc; exact absurd hdig (by decide)
  | str s => exact ⟨'"', _, rfl, by decide, by decide⟩
  | arr xs => cases xs with
    | nil => exact ⟨'[', _, rfl, by decide, by decide⟩
    | cons x t => exact ⟨'[', _, rfl, by decide, by decide⟩
  | obj fs => cases fs with
    | nil => exact ⟨'\x7b', _, rfl, by decide, by decide⟩
    | cons f t => exact ⟨'\x7b', _, rfl, by decide, by decide⟩

/-- The rest after an array element starts with a comma or the closing
bracket. -/
theorem noDigHead_jRest (t : List Json) (c : Char) (rest : List Char)
    (hc : isDig c = false) : noDigHead (jRest t ++ c :: rest) := by
  cases t with
  | nil => exact hc
  | cons x t2 => show isDig ',' = false; decide

/-- The rest after an object member starts with a comma or the closing
brace. -/
theorem noDigHead_jFieldRest (t : List (String × Json)) (c : Char)
    (rest : List Char) (hc : isDig c = false) :
    noDigHead (jFieldRest t ++ c :: rest) := by
  cases t with
  | nil => exact hc
  | cons f t2 => show isDig ',' = false; decide

/-- Every value is at least one unit of size. -/
theorem jsize_pos (d : Json) : 1 ≤ jsize d := by
  cases d <;> simp [jsize]

/-- The string a literal was built from is the literal. -/
theorem mk_data (s : String) : String.mk s.data = s := rfl

/-- A digit character is none of the other value-opening characters. -/
theorem isDig_ne (c : Char) (h : isDig c = true) :
    c ≠ 'n' ∧ c ≠ 't' ∧ c ≠ 'f' ∧ c ≠ '"' ∧ c ≠ '[' ∧ c ≠ '\x7b' ∧ c ≠ '-' := by
  refine ⟨?_, ?_, ?_, ?_, ?_, ?_, ?_⟩ <;>
    (intro he; subst he; exact absurd h (by decide))

mutual

/-- The fuel a value needs is at most its serialized length. -/
theorem jsize_le_len (d : Json) : jsize d ≤ (jChars d).length := by
  cases d with
  | null => decide
  | bool b => cases b <;> decide
  | num n =>
    simp only [jsize, jChars]
    unfold intChars
    split
    · simp
    · have hne := natChars_ne_nil n.toNat
      have hpos : 0 < (natChars n.toNat).length := List.length_pos.mpr hne
      omega
  | str s =>
    simp only [jsize, jChars, quoteChars, List.length_cons, List.length_append]
    omega
  | arr xs =>
    cases xs with
    | nil => decide
    | cons x t =>
      have h1 := jsize_le_len x
      have h2 := esize_le_len t
      simp only [jsize, esize, jChars, List.length_cons, List.length_append,
        List.length_singleton]
      omega
  | obj fs =>
    cases fs with
    | nil => decide
    | cons f t =>
      obtain ⟨k, v⟩ := f
      have h1 := jsize_le_len v
      have h2 := msize_le_len t
      simp only [jsize, msize, jChars, jField, quoteChars, List.length_cons,
        List.length_append, List.length_singleton]
      omega

/-- The fuel the elements of an array need is at most their serialized
length. -/
theorem esize_le_len (t : List Json) : esize t ≤ (jRest t).length := by
  cases t with
  | nil => decide
  | cons x t2 =>
    have h1 := jsize_le_len x
    have h2 := esize_le_len t2
    simp only [esize, jRest, List.length_cons, List.length_append]
    omega

/-- The fuel the members of an object need is at most their serialized
length. -/
theorem msize_le_len (t : List (String × Json)) : msize t ≤ (jFieldRest t).length := by
  cases t with
  | nil => decide
  | cons f t2 =>
    obtain ⟨k, v⟩ := f
    have h1 := jsize_le_len v
    have h2 := msize_le_len t2
    simp only [msize, jFieldRest, jField, quoteChars, List.length_cons,
      List.length_append]
    omega

end

/-- With fuel at least the size of the value, the parser reads back
exactly what the serializer emitted, leaving the rest of the input. -/
theorem parse_spec (fuel : Nat) :
    (∀ d rest, jsize d ≤ fuel → noDigHead rest →
      parseVal fuel (jChars d ++ rest) = some (d, rest)) ∧
    (∀ x t rest, esize (x :: t) ≤ fuel →
      parseElems fuel (jChars x ++ (jRest t ++ (']' :: rest))) = some (x :: t, rest)) ∧
    (∀ kv t rest, msize (kv :: t) ≤ fuel →
      parseMembers fuel (jField kv ++ (jFieldRest t ++ ('\x7d' :: rest))) =
        some (kv :: t, rest)) := by
  induction fuel with
  | zero =>
    refine ⟨?_, ?_, ?_⟩
    · intro d rest hsz _
      exact absurd hsz (by have := jsize_pos d; omega)
    · intro x t rest hsz
      exact absurd hsz (by simp [esize])
    · intro kv t rest hsz
      obtain ⟨k, v⟩ := kv
      exact absurd hsz (by simp [msize])
  | succ fuel ih =>
    obtain ⟨ihV, ihE, ihM⟩ := ih
    refine ⟨?_, ?_, ?_⟩
    · intro d rest hsz hrest
      cases d with
      | null =>
        rw [show jChars .null ++ rest = 'n' :: 'u' :: 'l' :: 'l' :: rest from rfl,
          parseVal.eq_def]
        simp
      | bool b =>
        cases b with
        | true =>
          rw [show jChars (.bool true) ++ rest = 't' :: 'r' :: 'u' :: 'e' :: rest
            from rfl, parseVal.eq_def]
          simp
        | false =>
          rw [show jChars (.bool false) ++ rest =
            'f' :: 'a' :: 'l' :: 's' :: 'e' :: rest from rfl, parseVal.eq_def]
          simp
      | num n =>
        by_cases hn : n < 0
        · have hshape : jChars (.num n) ++ rest = '-' :: (natChars n.natAbs ++ rest) := by
            simp [jChars, intChars, hn]
          rw [hshape, parseVal.eq_def]
          simp only [parseDigits_natChars n.natAbs rest hrest]
          simp [abs_of_neg hn]
        · cases hnc : natChars n.toNat with
          | nil => exact absurd hnc (natChars_ne_nil _)
          | cons c t =>
            have hdig : isDig c = true := by
              apply natChars_digits n.toNat
              rw [hnc]; exact List.mem_cons_self c t
            obtain ⟨hd1, hd2, hd3, hd4, hd5, hd6, hd7⟩ := isDig_ne c hdig
            have hshape : jChars (.num n) ++ rest = c :: (t ++ rest) := by
              simp [jChars, intChars, hn, hnc]
            rw [hshape, parseVal.eq_def]
            simp only []
            have hback : c :: (t ++ rest) = natChars n.toNat ++ rest := by
              rw [hnc]; rfl
            simp [hd1, hd2, hd3, hd4, hd5, hd6, hd7, hdig, hback,
              parseDigits_natChars n.toNat rest hrest]
            omega
      | str s =>
        have hshape : jChars (.str s) ++ rest = '"' :: (escList s.data ++ ('"' :: rest)) := by
          simp [jChars, quoteChars, List.append_assoc]
        rw [hshape, parseVal.eq_def]
        simp [parseStr_escList, mk_data]
      | arr xs =>
        cases xs with
        | nil =>
          rw [show jChars (.arr []) ++ rest = '[' :: ']' :: rest from rfl,
            parseVal.eq_def]
          simp
        | cons x t =>
          obtain ⟨c0, cs0, hx, hne1, hne2⟩ := jChars_head x
          have hshape : jChars (.arr (x :: t)) ++ rest =
              '[' :: (c0 :: (cs0 ++ (jRest t ++ (']' :: rest)))) := by
            simp [jChars, hx, List.append_assoc]
          rw [hshape, parseVal.eq_def]
          simp only []
          have hback : c0 :: (cs0 ++ (jRest t ++ (']' :: rest))) =
              jChars x ++ (jRest t ++ (']' :: rest)) := by
            rw [hx]; rfl
          have hsz2 : esize (x :: t) ≤ fuel := by
            simp only [jsize] at hsz; omega
          simp [hne1, hback, ihE x t rest hsz2]
      | obj fs =>
        cases fs with
        | nil =>
          rw [show jChars (.obj []) ++ rest = '\x7b' :: '\x7d' :: rest from rfl,
            parseVal.eq_def]
          simp
        | cons f t =>
          obtain ⟨k, v⟩ := f
          have hshape : jChars (.obj ((k, v) :: t)) ++ rest =
              '\x7b' :: ('"' :: ((escList k.data ++
                ('"' :: (':' :: jChars v))) ++ (jFieldRest t ++ ('\x7d' :: rest)))) := by
            simp [jChars, jField, quoteChars, List.append_assoc]
          rw [hshape, parseVal.eq_def]
          simp only []
          have hsz2 : msize ((k, v) :: t) ≤ fuel := by
            simp only [jsize] at hsz; omega
          have him := ihM (k, v) t rest hsz2
          simp only [jField, quoteChars, List.cons_append, List.nil_append,
            List.append_assoc] at him
          simp [him]
    · intro x t rest hsz
      have hnd : noDigHead (jRest t ++ (']' :: rest)) :=
        noDigHead_jRest t ']' rest (by decide)
      have hszx : jsize x ≤ fuel := by
        simp only [esize] at hsz; omega
      have hv := ihV x (jRest t ++ (']' :: rest)) hszx hnd
      rw [parseElems.eq_def]
      simp only [hv]
      cases t with
      | nil => simp [jRest]
      | cons y t2 =>
        have hr : jRest (y :: t2) ++ (']' :: rest) =
            ',' :: (jChars y ++ (jRest t2 ++ (']' :: rest))) := by
          simp [jRest, List.append_assoc]
        have hsz2 : esize (y :: t2) ≤ fuel := by
          have hp := jsize_pos x
          simp only [esize] at hsz ⊢; omega
        rw [hr]
        simp [ihE y t2 rest hsz2]
    · intro kv t rest hsz
      obtain ⟨k, v⟩ := kv
      have hshape : jField (k, v) ++ (jFieldRest t ++ ('\x7d' :: rest)) =
          '"' :: (escList k.data ++ ('"' ::
            (':' :: (jChars v ++ (jFieldRest t ++ ('\x7d' :: rest)))))) := by
        simp [jField, quoteChars, List.append_assoc]
      have hnd : noDigHead (jFieldRest t ++ ('\x7d' :: rest)) :=
        noDigHead_jFieldRest t '\x7d' rest (by decide)
      have hszv : jsize v ≤ fuel := by
        simp only [msize] at hsz; omega
      have hv := ihV v (jFieldRest t ++ ('\x7d' :: rest)) hszv hnd
      rw [hshape, parseMembers.eq_def]
      simp only [parseStr_escList, hv]
      cases t with
      | nil => simp [jFieldRest, mk_data]
      | cons f2 t2 =>
        have hr : jFieldRest (f2 :: t2) ++ ('\x7d' :: rest) =
            ',' :: (jField f2 ++ (jFieldRest t2 ++ ('\x7d' :: rest))) := by
          simp [jFieldRest, List.append_assoc]
        have hsz2 : msize (f2 :: t2) ≤ fuel := by
          have hp := jsize_pos v
          simp only [msize] at hsz ⊢; omega
        rw [hr]
        simp [ihM f2 t2 rest hsz2, mk_data]

/-- C9: jsonLdScript wraps exactly JSON.stringify of the payload in the
script tag, with no escaping beyond JSON string serialization, and
parsing the JSON content between the opening and closing tags
reproduces a structurally equal value. -/
theorem C9_jsonld_roundtrip (d : Json) :
    jsonLdScript d =
      "<script type=\"application/ld+json\">" ++ stringify d ++ "</script>" ∧
    parseJson (stringify d) = some d := by
  refine ⟨rfl, ?_⟩
  have hdata : (stringify d).data = jChars d := rfl
  have hlen : (stringify d).length = (jChars d).length := rfl
  unfold parseJson
  rw [hdata, hlen]
  have hsz : jsize d ≤ (jChars d).length + 1 := by
    have := jsize_le_len d; omega
  have hp := (parse_spec ((jChars d).length + 1)).1 d [] hsz trivial
  rw [List.append_nil] at hp
  rw [hp]

/-! ## Schema lookup lemmas -/

/-- Lookup distributes over append, preferring the left list. -/
theorem lookup_append (k : String) (xs ys : List (String × Json)) :
    List.lookup k (xs ++ ys) =
      (match List.lookup k xs with
       | some v => some v
       | none => List.lookup k ys) := by
  induction xs with
  | nil => simp [List.lookup]
  | cons a t ih =>
    obtain ⟨k2, v2⟩ := a
    cases hk : (k == k2) with
    | true => simp [List.lookup, hk]
    | false => simp [List.lookup, hk, ih]

/-- Lookup in a conditionally spread string member. -/
theorem lookup_strEntry (k k2 : String) (o : Option String) :
    List.lookup k (strEntry k2 o) =
      (if k = k2 then
        (match o with
         | some s => if s = "" then none else some (Json.str s)
         | none => none)
       else none) := by
  cases o with
  | none => simp [strEntry]
  | some s =>
    by_cases hs : s = ""
    · simp [strEntry, hs]
    · by_cases hk : k = k2
      · simp [strEntry, hs, hk, List.lookup]
      · have hbeq : (k == k2) = false := by simp [hk]
        simp [strEntry, hs, hk, List.lookup, hbeq]

/-- Lookup in a conditionally spread string-list member. -/
theorem lookup_listEntry (k k2 : String) (o : Option (List String)) :
    List.lookup k (listEntry k2 o) =
      (if k = k2 then
        (match o with
         | some l => if l = [] then none else some (Json.arr (l.map .str))
         | none => none)
       else none) := by
  cases o with
  | none => simp [listEntry]
  | some l =>
    by_cases hl : l = []
    · simp [listEntry, hl]
    · by_cases hk : k = k2
      · simp [listEntry, hl, hk, List.lookup]
      · have hbeq : (k == k2) = false := by simp [hk]
        simp [listEntry, hl, hk, List.lookup, hbeq]

/-- Lookup in a conditionally spread number member. -/
theorem lookup_numEntry (k k2 : String) (o : Option Int) :
    List.lookup k (numEntry k2 o) =
      (if k = k2 then
        (match o with
         | some n => if n = 0 then none else some (Json.num n)
         | none => none)
       else none) := by
  cases o with
  | none => simp [numEntry]
  | some n =>
    by_cases hn : n = 0
    · simp [numEntry, hn]
    · by_cases hk : k = k2
      · simp [numEntry, hn, hk, List.lookup]
      · have hbeq : (k == k2) = false := by simp [hk]
        simp [numEntry, hn, hk, List.lookup, hbeq]

/-- Lookup in the conditionally spread duration member. -/
theorem lookup_durationEntry (k k2 : String) (o : Option Int) :
    List.lookup k (durationEntry k2 o) =
      (if k = k2 then
        (match o with
         | some n => if n = 0 then none
                     else some (Json.str ("PT" ++ toString n ++ "M"))
         | none => none)
       else none) := by
  cases o with
  | none => simp [durationEntry]
  | some n =>
    by_cases hn : n = 0
    · simp [durationEntry, hn]
    · by_cases hk : k = k2
      · simp [durationEntry, hn, hk, List.lookup]
      · have hbeq : (k == k2) = false := by simp [hk]
        simp [durationEntry, hn, hk, List.lookup, hbeq]

/-- Lookup in the conditionally spread address member. -/
theorem lookup_placeEntry (k : String) (o : Option String) :
    List.lookup k (placeEntry o) =
      (if k = "address" then
        (match o with
         | some loc =>
           if loc = "" then none
           else some (Json.obj [("@type", .str "Place"), ("name", .str loc)])
         | none => none)
       else none) := by
  cases o with
  | none => simp [placeEntry]
  | some loc =>
    by_cases hl : loc = ""
    · simp [placeEntry, hl]
    · by_cases hk : k = "address"
      · simp [placeEntry, hl, hk, List.lookup]
      · have hbeq : (k == "address") = false := by simp [hk]
        simp [placeEntry, hl, hk, List.lookup, hbeq]

/-- Lookup in the conditionally spread worksFor member. -/
theorem lookup_worksForEntry (k : String) (o : Option WorksFor) :
    List.lookup k (worksForEntry o) =
      (if k = "worksFor" then
        (match o with
         | some w =>
           some (Json.obj ([("@type", .str "Organization"),
                            ("name", .str w.name)] ++ strEntry "url" w.url))
         | none => none)
       else none) := by
  cases o with
  | none => simp [worksForEntry]
  | some w =>
    by_cases hk : k = "worksFor"
    · simp [worksForEntry, hk, List.lookup]
    · have hbeq : (k == "worksFor") = false := by simp [hk]
      simp [worksForEntry, hk, List.lookup, hbeq]

/-- Lookup in the conditionally spread publisher member. -/
theorem lookup_publisherEntry (k : String) (name logo : Option String) :
    List.lookup k (publisherEntry name logo) =
      (if k = "publisher" then
        (match name with
         | some pn =>
           if pn = "" then none
           else some (Json.obj ([("@type", .str "Organization"),
                                 ("name", .str pn)] ++ strEntry "logo" logo))
         | none => none)
       else none) := by
  cases name with
  | none => simp [publisherEntry]
  | some pn =>
    by_cases hp : pn = ""
    · simp [publisherEntry, hp]
    · by_cases hk : k = "publisher"
      · simp [publisherEntry, hp, hk, List.lookup]
      · have hbeq : (k == "publisher") = false := by simp [hk]
        simp [publisherEntry, hp, hk, List.lookup, hbeq]

/-- Folding the trivial Option match away. -/
theorem optMatch_id (o : Option Json) :
    (match o with
     | some v => some v
     | none => none) = o := by
  cases o <;> rfl

/-- C10: in the three schema builders every truthiness-guarded optional
member is present exactly when its value is truthy, with a falsy value
(empty string, zero, empty list) omitted exactly as if the field had
been absent, while the required members are always present. -/
theorem C10_schema_guards (pp : PersonSchemaProps) (ap : ArticleSchemaProps)
    (op : OrganizationSchemaProps) :
    lookupField "@context" (personSchema pp) = some (.str "https://schema.org") ∧
    lookupField "@type" (personSchema pp) = some (.str "Person") ∧
    lookupField "name" (personSchema pp) = some (.str pp.name) ∧
    lookupField "url" (personSchema pp) = some (.str pp.url) ∧
    lookupField "jobTitle" (personSchema pp) =
      (match pp.jobTitle with
       | some s => if s = "" then none else some (.str s)
       | none => none) ∧
    lookupField "description" (personSchema pp) =
      (match pp.description with
       | some s => if s = "" then none else some (.str s)
       | none => none) ∧
    lookupField "email" (personSchema pp) =
      (match pp.email with
       | some s => if s = "" then none else some (.str s)
       | none => none) ∧
    lookupField "image" (personSchema pp) =
      (match pp.image with
       | some s => if s = "" then none else some (.str s)
       | none => none) ∧
    lookupField "sameAs" (personSchema pp) =
      (match pp.sameAs with
       | some l => if l = [] then none else some (.arr (l.map .str))
       | none => none) ∧
    lookupField "knowsAbout" (personSchema pp) =
      (match pp.knowsAbout with
       | some l => if l = [] then none else some (.arr (l.map .str))
       | none => none) ∧
    lookupField "address" (personSchema pp) =
      (match pp.location with
       | some loc =>
         if loc = "" then none
         else some (.obj [("@type", .str "Place"), ("name", .str loc)])
       | none => none) ∧
    lookupField "worksFor" (personSchema pp) =
      (match pp.worksFor with
       | some w =>
         some (.obj ([("@type", .str "Organization"),
                      ("name", .str w.name)] ++ strEntry "url" w.url))
       | none => none) ∧
    lookupField "@context" (articleSchema ap) = some (.str "https://schema.org") ∧
    lookupField "@type" (articleSchema ap) = some (.str (ap.type.getD "BlogPosting")) ∧
    lookupField "headline" (articleSchema ap) = some (.str ap.headline) ∧
    lookupField "description" (articleSchema ap) = some (.str ap.description) ∧
    lookupField "url" (articleSchema ap) = some (.str ap.url) ∧
    lookupField "mainEntityOfPage" (articleSchema ap) = some (.str ap.url) ∧
    lookupField "datePublished" (articleSchema ap) = some (.str ap.datePublished) ∧
    lookupField "author" (articleSchema ap) =
      some (.obj ([("@type", .str "Person"),
                   ("name", .str ap.authorName)] ++ strEntry "url" ap.authorUrl)) ∧
    lookupField "image" (articleSchema ap) =
      (match ap.image with
       | some s => if s = "" then none else some (.str s)
       | none => none) ∧
    lookupField "dateModified" (articleSchema ap) =
      (match ap.dateModified with
       | some s => if s = "" then none else some (.str s)
       | none => none) ∧
    lookupField "publisher" (articleSchema ap) =
      (match ap.publisherName with
       | some pn =>
         if pn = "" then none
         else some (.obj ([("@type", .str "Organization"),
                           ("name", .str pn)] ++ strEntry "logo" ap.publisherLogo))
       | none => none) ∧
    lookupField "wordCount" (articleSchema ap) =
      (match ap.wordCount with
       | some n => if n = 0 then none else some (.num n)
       | none => none) ∧
    lookupField "timeRequired" (articleSchema ap) =
      (match ap.readingTime with
       | some n => if n = 0 then none
                   else some (.str ("PT" ++ toString n ++ "M"))
       | none => none) ∧
    lookupField "keywords" (articleSchema ap) =
      (match ap.keywords with
       | some l => if l = [] then none else some (.arr (l.map .str))
       | none => none) ∧
    lookupField "articleSection" (articleSchema ap) =
      (match ap.articleSection with
       | some s => if s = "" then none else some (.str s)
       | none => none) ∧
    lookupField "@context" (organizationSchema op) = some (.str "https://schema.org") ∧
    lookupField "@type" (organizationSchema op) = some (.str "Organization") ∧
    lookupField "name" (organizationSchema op) = some (.str op.name) ∧
    lookupField "url" (organizationSchema op) = some (.str op.url) ∧
    lookupField "logo" (organizationSchema op) =
      (match op.logo with
       | some s => if s = "" then none else some (.str s)
       | none => none) ∧
    lookupField "description" (organizationSchema op) =
      (match op.description with
       | some s => if s = "" then none else some (.str s)
       | none => none) ∧
    lookupField "sameAs" (organizationSchema op) =
      (match op.sameAs with
       | some l => if l = [] then none else some (.arr (l.map .str))
       | none => none) ∧
    lookupField "email" (organizationSchema op) =
      (match op.email with
       | some s => if s = "" then none else some (.str s)
       | none => none) ∧
    lookupField "telephone" (organizationSchema op) =
      (match op.telephone with
       | some s => if s = "" then none else some (.str s)
       | none => none) := by
  repeat' apply And.intro
  all_goals
    simp [personSchema, articleSchema, organizationSchema, lookupField, jFields,
      lookup_append, lookup_strEntry, lookup_listEntry, lookup_numEntry,
      lookup_durationEntry, lookup_placeEntry, lookup_worksForEntry,
      lookup_publisherEntry, List.lookup, optMatch_id]

end NextSeoLite
